import Mathlib

/-!
Verification of the blackjack simulation engine (blackjack_sim2.py).

The Python source is shallowly embedded below.  Conventions:

* A Card is identified with its rank.  The Python Card stores a suit, but the
  suit is cosmetic: every rule in the source compares ranks (string equality
  on the rank field) or uses the rank's point value, so the suit is dropped.
  The ranks 10, J, Q and K are distinct constructors because the source
  compares rank strings, where the string J differs from the string 10.
* The shoe is represented by the list of cards in the order they will be
  dealt.  Python's Deck stores a list and deals with cards.pop(), taking the
  last element; our deck list is that list reversed, so the head is the next
  card dealt.  Deck.deal's rebuild-on-empty branch is modelled explicitly by
  the Deck structure below, whose refill field records the (randomly
  shuffled, hence arbitrary) order the rebuilt shoe would be dealt in; the
  round engine itself runs on the flattened stream cards ++ refill, which
  dealStream below justifies.  Functions that draw return Option and yield
  none when the modelled stream runs out.
* Python floats (bets, profits, true counts) are modelled by Rat, and the
  running count by Int.
* Record, hand-result and step structures carry two instrumentation fields
  that the Python computes but does not store, used only to state properties:
  the remaining deck, and the list of final values of the dealer playouts
  performed during the round.
-/

namespace Blackjack

/-- Card ranks, from Card.RANKS in the source.  The suit is cosmetic and
dropped (rules only ever read the rank and its value). -/
inductive Card where
  | r2 | r3 | r4 | r5 | r6 | r7 | r8 | r9 | r10 | j | q | k | a
deriving DecidableEq, Repr

/-- Card.VALUES from the source: 2..10 at face value, J/Q/K = 10, A = 11. -/
def Card.value : Card → Nat
  | .r2 => 2 | .r3 => 3 | .r4 => 4 | .r5 => 5 | .r6 => 6
  | .r7 => 7 | .r8 => 8 | .r9 => 9 | .r10 => 10
  | .j => 10 | .q => 10 | .k => 10 | .a => 11

/-- The rank token printed by Card.__str__ (the rank string). -/
def Card.rankStr : Card → String
  | .r2 => "2" | .r3 => "3" | .r4 => "4" | .r5 => "5" | .r6 => "6"
  | .r7 => "7" | .r8 => "8" | .r9 => "9" | .r10 => "10"
  | .j => "J" | .q => "Q" | .k => "K" | .a => "A"

/-- The raw sum of card values before any ace adjustment: the first line of
Hand.get_value (and the value used by Hand.is_soft). -/
def rawValue (hand : List Card) : Nat :=
  (hand.map Card.value).sum

/-- Number of aces in the hand (num_aces in Hand.get_value / Hand.is_soft). -/
def numAces (hand : List Card) : Nat :=
  hand.count Card.a

/-- The ace-adjustment loop of Hand.get_value: while value > 21 and an ace is
still counted high, subtract 10. -/
def adjustAces : Nat → Nat → Nat
  | v, 0 => v
  | v, n + 1 => if 21 < v then adjustAces (v - 10) n else v

/-- Hand.get_value from the source. -/
def getValue (hand : List Card) : Nat :=
  adjustAces (rawValue hand) (numAces hand)

/-- Hand.is_blackjack from the source: exactly two cards valued 21. -/
def isBlackjack (hand : List Card) : Bool :=
  decide (hand.length = 2) && decide (getValue hand = 21)

/-- Hand.is_soft from the source.  Note that the source tests the RAW sum of
card values (before ace demotion) against 21, not the adjusted value. -/
def isSoft (hand : List Card) : Bool :=
  decide (0 < numAces hand) && decide (rawValue hand ≤ 21)

/-- Hand.__str__ from the source: rank tokens joined by a dash. -/
def handStr (hand : List Card) : String :=
  String.intercalate "-" (hand.map Card.rankStr)

/-- The actions a playing strategy may return. -/
inductive Action where
  | hit | stand | double | split | insurance
deriving DecidableEq, Repr

/-- A playing strategy: hand, dealer upcard, can_double flag, can_split flag.
This is the call shape strategy_func has inside play_single_hand, where the
flags default to False when not passed. -/
abbrev Strategy := List Card → Card → Bool → Bool → Action

/-- The dealer drawing loop of play_dealer: draw while the value is below 17,
or equals 17 and the hand is soft (by the source's is_soft).  Returns the
final dealer hand, its value, the cards drawn in order, and the rest of the
deck; none if the modelled deck stream runs out mid-loop. -/
def playDealer : List Card → List Card → Option (List Card × Nat × List Card × List Card)
  | dealer, [] =>
    if getValue dealer < 17 ∨ (getValue dealer = 17 ∧ isSoft dealer = true) then
      none
    else
      some (dealer, getValue dealer, [], [])
  | dealer, c :: rest =>
    if getValue dealer < 17 ∨ (getValue dealer = 17 ∧ isSoft dealer = true) then
      match playDealer (dealer ++ [c]) rest with
      | none => none
      | some (h, v, drawn, deckRest) => some (h, v, c :: drawn, deckRest)
    else
      some (dealer, getValue dealer, [], c :: rest)

/-- The hit/stand loop of play_single_hand: ask the strategy (no capability
flags); on hit draw a card and stop with busted = true if the value exceeds
21; on any non-hit answer stop with busted = false.  Returns the final hand,
the cards drawn in order, the rest of the deck, and the bust flag. -/
def hitLoop (strat : Strategy) (up : Card) : List Card → List Card → Option (List Card × List Card × List Card × Bool)
  | hand, [] =>
    match strat hand up false false with
    | Action.hit => none
    | _ => some (hand, [], [], false)
  | hand, c :: rest =>
    match strat hand up false false with
    | Action.hit =>
      if 21 < getValue (hand ++ [c]) then
        some (hand ++ [c], [c], rest, true)
      else
        match hitLoop strat up (hand ++ [c]) rest with
        | none => none
        | some (h, drawn, deckRest, b) => some (h, c :: drawn, deckRest, b)
    | _ => some (hand, [], c :: rest, false)

/-- Result of playing one (sub-)hand in play_single_hand, plus bookkeeping:
str and profit are the returned pair; objCards is the final card list of the
Hand object that was passed in (the source mutates hands in place and the
round record later reads player_hand.get_value() from it); seen is the list
of cards appended to cards_seen during the call, in order; deckAfter is the
remaining deck; dealerVals records the final value of each play_dealer
playout performed during the call (instrumentation). -/
structure HandResult where
  str : String
  profit : Rat
  objCards : List Card
  seen : List Card
  deckAfter : List Card
  dealerVals : List Nat
deriving DecidableEq, Repr

/-- play_single_hand without its split branch (the doubling branch, the
hit/stand loop, the dealer playout and the comparison).  dealerCards is
dealer_hand.cards, which play_dealer copies and plays out afresh. -/
def playHandNoSplit (strat : Strategy) (up : Card) (dealerCards : List Card)
    (bet : Rat) (allowDouble : Bool) (hand deck : List Card) : Option HandResult :=
  if allowDouble = true ∧ hand.length = 2 ∧ strat hand up true false = Action.double then
    match deck with
    | [] => none
    | c :: rest =>
      if 21 < getValue (hand ++ [c]) then
        some ⟨handStr (hand ++ [c]), -(2 * bet), hand ++ [c], [c], rest, []⟩
      else
        match playDealer dealerCards rest with
        | none => none
        | some (_, dealerVal, drawn, deckRest) =>
          let playerVal := getValue (hand ++ [c])
          let profit : Rat :=
            if 21 < dealerVal ∨ dealerVal < playerVal then 2 * bet
            else if playerVal < dealerVal then -(2 * bet)
            else 0
          some ⟨handStr (hand ++ [c]), profit, hand ++ [c], c :: drawn, deckRest, [dealerVal]⟩
  else
    match hitLoop strat up hand deck with
    | none => none
    | some (finalHand, hits, deckRest, busted) =>
      if busted then
        some ⟨handStr finalHand, -bet, finalHand, hits, deckRest, []⟩
      else
        match playDealer dealerCards deckRest with
        | none => none
        | some (_, dealerVal, drawn, deckRest2) =>
          let playerVal := getValue finalHand
          let profit : Rat :=
            if 21 < dealerVal ∨ dealerVal < playerVal then bet
            else if playerVal < dealerVal then -bet
            else 0
          some ⟨handStr finalHand, profit, finalHand, hits ++ drawn, deckRest2, [dealerVal]⟩

/-- play_single_hand from the source: if splitting is allowed, the hand is a
two-card pair and the strategy (asked with can_split=True) says split, deal
one card to each of two new sub-hands and play both with splitting disabled,
concatenating the hand strings with a bar and summing the profits; otherwise
fall through to the doubling branch and the normal loop.  After a split the
original Hand object keeps its two cards, so objCards is the original hand. -/
def playSingleHand (strat : Strategy) (up : Card) (dealerCards : List Card)
    (bet : Rat) (allowDouble allowSplit : Bool) (hand deck : List Card) : Option HandResult :=
  match hand with
  | [c1, c2] =>
    if allowSplit = true ∧ c1 = c2 ∧ strat [c1, c2] up false true = Action.split then
      match deck with
      | d1 :: d2 :: rest =>
        match playHandNoSplit strat up dealerCards bet true [c1, d1] rest with
        | none => none
        | some res1 =>
          match playHandNoSplit strat up dealerCards bet true [c2, d2] res1.deckAfter with
          | none => none
          | some res2 =>
            some ⟨res1.str ++ "|" ++ res2.str, res1.profit + res2.profit, [c1, c2],
              d1 :: d2 :: (res1.seen ++ res2.seen), res2.deckAfter,
              res1.dealerVals ++ res2.dealerVals⟩
      | _ => none
    else
      playHandNoSplit strat up dealerCards bet allowDouble [c1, c2] deck
  | _ => playHandNoSplit strat up dealerCards bet allowDouble hand deck

/-- The round outcome record built by play_round, with the deckAfter and
dealerPlayoutVals instrumentation fields added (see HandResult). -/
structure RoundResult where
  playerHand : String
  playerFinalValue : Nat
  dealerHand : String
  dealerFinalValue : Nat
  result : String
  profit : Rat
  cardsSeen : List Card
  deckAfter : List Card
  dealerPlayoutVals : List Nat
deriving DecidableEq, Repr

/-- play_round from the source.  Cards are dealt player, dealer, player,
dealer; cards_seen starts as player_hand.cards + dealer_hand.cards.  After
the blackjack checks the single player hand is played; the result tag is
derived from the sign of the profit.  The record's dealer_hand and
dealer_final_value are read from the dealer_hand object, which play_dealer
never mutates (it plays a copy), so they describe the initial two dealer
cards; the record's player_final_value is read from the player_hand object,
which hitting and doubling mutate in place but splitting does not. -/
def playRound (strat : Strategy) (bet : Rat) (deck : List Card) : Option RoundResult :=
  match deck with
  | p1 :: d1 :: p2 :: d2 :: rest =>
    if isBlackjack [p1, p2] && isBlackjack [d1, d2] then
      some ⟨handStr [p1, p2], getValue [p1, p2], handStr [d1, d2], getValue [d1, d2],
        "push", 0, [p1, p2] ++ [d1, d2], rest, []⟩
    else if isBlackjack [p1, p2] then
      some ⟨handStr [p1, p2], getValue [p1, p2], handStr [d1, d2], getValue [d1, d2],
        "win", 3 / 2 * bet, [p1, p2] ++ [d1, d2], rest, []⟩
    else if isBlackjack [d1, d2] then
      some ⟨handStr [p1, p2], getValue [p1, p2], handStr [d1, d2], getValue [d1, d2],
        "loss", -bet, [p1, p2] ++ [d1, d2], rest, []⟩
    else
      match playSingleHand strat d1 [d1, d2] bet true true [p1, p2] rest with
      | none => none
      | some res =>
        some ⟨res.str, getValue res.objCards, handStr [d1, d2], getValue [d1, d2],
          (if 0 < res.profit then "win" else if res.profit < 0 then "loss" else "push"),
          res.profit, ([p1, p2] ++ [d1, d2]) ++ res.seen, res.deckAfter, res.dealerVals⟩
  | _ => none

/-- strategy_mimic_dealer from the source: hit below 17, else stand. -/
def strategyMimicDealer : Strategy := fun hand _ _ _ =>
  if getValue hand < 17 then Action.hit else Action.stand

/-- The pair-splitting block of strategy_basic (the chart consulted when
can_split holds and the two cards share a rank); none means the chart has no
entry and control falls through to the next block. -/
def basicPairSec (pair up : Card) (canDouble : Bool) : Option Action :=
  if pair = Card.a ∨ pair = Card.r8 then some Action.split
  else if (pair = Card.r2 ∨ pair = Card.r3 ∨ pair = Card.r7) ∧
      up ∈ [Card.r2, Card.r3, Card.r4, Card.r5, Card.r6, Card.r7] then some Action.split
  else if pair = Card.r6 ∧ up ∈ [Card.r2, Card.r3, Card.r4, Card.r5, Card.r6] then
    some Action.split
  else if pair = Card.r9 ∧
      up ∈ [Card.r2, Card.r3, Card.r4, Card.r5, Card.r6, Card.r8, Card.r9] then
    some Action.split
  else if pair = Card.r4 ∧ (up = Card.r5 ∨ up = Card.r6) then some Action.split
  else if pair = Card.r5 ∧
      up ∈ [Card.r2, Card.r3, Card.r4, Card.r5, Card.r6, Card.r7, Card.r8, Card.r9] then
    some (if canDouble then Action.double else Action.hit)
  else if pair = Card.r10 then some Action.stand
  else none

/-- The doubling block of strategy_basic (consulted when can_double holds on
a two-card hand): soft doubles keyed by the non-ace kicker, then hard
doubles keyed by the hand value; none falls through. -/
def basicDoubleSec (hand : List Card) (up : Card) (val : Nat) : Option Action :=
  let others := hand.filter (fun c => !(c == Card.a))
  let softDouble : Option Action :=
    if hand.contains Card.a then
      match others.head? with
      | some other =>
        if (other = Card.r2 ∨ other = Card.r3) ∧ (up = Card.r5 ∨ up = Card.r6) then
          some Action.double
        else if (other = Card.r4 ∨ other = Card.r5) ∧ up ∈ [Card.r4, Card.r5, Card.r6] then
          some Action.double
        else if other = Card.r6 ∧ up ∈ [Card.r3, Card.r4, Card.r5, Card.r6] then
          some Action.double
        else if other = Card.r7 ∧ up ∈ [Card.r3, Card.r4, Card.r5, Card.r6] then
          some Action.double
        else none
      | none => none
    else none
  match softDouble with
  | some act => some act
  | none =>
    if val = 9 ∧ up ∈ [Card.r3, Card.r4, Card.r5, Card.r6] then some Action.double
    else if val = 10 ∧
        up ∈ [Card.r2, Card.r3, Card.r4, Card.r5, Card.r6, Card.r7, Card.r8, Card.r9] then
      some Action.double
    else if val = 11 ∧
        up ∈ [Card.r2, Card.r3, Card.r4, Card.r5, Card.r6, Card.r7, Card.r8, Card.r9, Card.r10] then
      some Action.double
    else none

/-- The soft-totals standing chart of strategy_basic, keyed by the non-ace
kicker rank (the last branch before the final hit is dead code in the
source, transcribed as-is). -/
def basicSoftStand (other up : Card) : Action :=
  if other ∈ [Card.r8, Card.r9, Card.r10] then Action.stand
  else if other = Card.r7 then
    (if up ∈ [Card.r2, Card.r7, Card.r8] then Action.stand else Action.hit)
  else if other = Card.r6 then
    (if up ∈ [Card.r2, Card.r3, Card.r4, Card.r5, Card.r6] then Action.stand else Action.hit)
  else if other ∈ [Card.r2, Card.r3, Card.r4, Card.r5] then
    (if up ∈ [Card.r4, Card.r5, Card.r6] then Action.stand else Action.hit)
  else if (other = Card.r2 ∨ other = Card.r3) ∧ (up = Card.r5 ∨ up = Card.r6) then
    Action.stand
  else Action.hit

/-- The hard-totals chart of strategy_basic. -/
def basicHard (val : Nat) (up : Card) : Action :=
  if val ≤ 11 then Action.hit
  else if val = 12 then
    (if up ∈ [Card.r4, Card.r5, Card.r6] then Action.stand else Action.hit)
  else if 13 ≤ val ∧ val ≤ 16 then
    (if up ∈ [Card.r2, Card.r3, Card.r4, Card.r5, Card.r6] then Action.stand else Action.hit)
  else Action.stand

/-- strategy_basic from the source: pair chart (when can_split and the hand
is a two-card pair), then the doubling charts (when can_double on two
cards), then soft totals by kicker on two-card hands containing an ace
(a two-ace hand falls to the bare hit), then hard totals. -/
def strategyBasic : Strategy := fun hand up canDouble canSplit =>
  let val := getValue hand
  let pairSec : Option Action :=
    match hand with
    | [c1, c2] => if canSplit = true ∧ c1 = c2 then basicPairSec c1 up canDouble else none
    | _ => none
  match pairSec with
  | some act => act
  | none =>
    match (if canDouble = true ∧ hand.length = 2 then basicDoubleSec hand up val else none) with
    | some act => act
    | none =>
      if hand.contains Card.a ∧ hand.length = 2 then
        match (hand.filter (fun c => !(c == Card.a))).head? with
        | some other => basicSoftStand other up
        | none => Action.hit
      else
        basicHard val up

/-- The deviation table of strategy_card_counter, abstracted over the true
count it is evaluated at: insurance on ace upcard at TC at least 3, stand
16v10 at TC at least 0, stand 15v10 at TC at least 4, hit 13v2 at TC at most
minus 1, hit 12v3 at TC at most 0, stand 12v2 at TC at least 3, else defer
to strategy_basic. -/
def deviationDecision (trueCount : Rat) (hand : List Card) (up : Card)
    (canDouble canSplit : Bool) : Action :=
  let val := getValue hand
  if up = Card.a ∧ 3 ≤ trueCount then Action.insurance
  else if val = 16 ∧ up = Card.r10 ∧ 0 ≤ trueCount then Action.stand
  else if val = 15 ∧ up = Card.r10 ∧ 4 ≤ trueCount then Action.stand
  else if val = 13 ∧ up = Card.r2 ∧ trueCount ≤ -1 then Action.hit
  else if val = 12 ∧ up = Card.r3 ∧ trueCount ≤ 0 then Action.hit
  else if val = 12 ∧ up = Card.r2 ∧ 3 ≤ trueCount then Action.stand
  else strategyBasic hand up canDouble canSplit

/-- strategy_card_counter from the source: decksRemainingArg models the
decks_remaining keyword argument, present (some) or absent (none, in which
case the source's kwargs.get default of 1 applies); it is max-ed with 1 and
the true count is the running count divided by it.  The deviation ifs and
the basic fallback are transcribed directly. -/
def strategyCardCounter (runningCount : Rat) (decksRemainingArg : Option Rat) : Strategy :=
  fun hand up canDouble canSplit =>
    let decksRemaining := max (decksRemainingArg.getD 1) 1
    let trueCount := runningCount / decksRemaining
    let val := getValue hand
    if up = Card.a ∧ 3 ≤ trueCount then Action.insurance
    else if val = 16 ∧ up = Card.r10 ∧ 0 ≤ trueCount then Action.stand
    else if val = 15 ∧ up = Card.r10 ∧ 4 ≤ trueCount then Action.stand
    else if val = 13 ∧ up = Card.r2 ∧ trueCount ≤ -1 then Action.hit
    else if val = 12 ∧ up = Card.r3 ∧ trueCount ≤ 0 then Action.hit
    else if val = 12 ∧ up = Card.r2 ∧ 3 ≤ trueCount then Action.stand
    else strategyBasic hand up canDouble canSplit

/-- update_count from the source: plus 1 on ranks 2 to 6, minus 1 on rank
10, J, Q, K or A, unchanged otherwise. -/
def updateCount (count : Int) (c : Card) : Int :=
  if c ∈ [Card.r2, Card.r3, Card.r4, Card.r5, Card.r6] then count + 1
  else if c ∈ [Card.r10, Card.j, Card.q, Card.k, Card.a] then count - 1
  else count

/-- The per-card increment applied by update_count. -/
def countIncrement (c : Card) : Int :=
  if c ∈ [Card.r2, Card.r3, Card.r4, Card.r5, Card.r6] then 1
  else if c ∈ [Card.r10, Card.j, Card.q, Card.k, Card.a] then -1
  else 0

/-- The inline bet spread of run_simulation on the card-counter path:
10 below TC 1, 25 at exactly 2, 50 at exactly 3, 100 at TC at least 4, 10
otherwise. -/
def ccBet (trueCount : Rat) : Rat :=
  if trueCount < 1 then 10
  else if trueCount = 2 then 25
  else if trueCount = 3 then 50
  else if 4 ≤ trueCount then 100
  else 10

/-- The shoe of Deck in the source: cards is the undealt shoe in deal order
(Python pops from the end of its list, so this list is that one reversed),
and refill is the deal order the rebuilt shoe would have after the
build-and-shuffle that deal() performs on an empty shoe (the shuffle is
uniformly random, so the refill list is the nondeterministic choice made
explicit). -/
structure Deck where
  cards : List Card
  refill : List Card
deriving DecidableEq, Repr

/-- Deck.deal from the source: on an empty shoe, rebuild and shuffle first
(swapping in refill), then deal the top card.  The flag reports whether a
rebuild happened; none only when the modelled refill is exhausted too. -/
def Deck.deal : Deck → Option (Card × Deck × Bool)
  | ⟨[], []⟩ => none
  | ⟨[], c :: rest⟩ => some (c, ⟨rest, []⟩, true)
  | ⟨c :: rest, refill⟩ => some (c, ⟨rest, refill⟩, false)

/-- The driver state threaded between rounds on the card-counter path of
run_simulation: the shoe (with its pending refill order) and the running
count. -/
structure CCState where
  cards : List Card
  refill : List Card
  runningCount : Int
deriving DecidableEq, Repr

/-- What one card-counter round of run_simulation produces: the round
record, the bet placed, the next driver state, and (instrumentation)
whether deal() silently rebuilt the shoe in the middle of the round. -/
structure CCStepResult where
  record : RoundResult
  bet : Rat
  next : CCState
  rebuiltMidRound : Bool
deriving DecidableEq, Repr

/-- One iteration of the run_simulation loop on the card-counter path
(playing_strategy == strategy_card_counter): rebuild, reshuffle and zero
the running count only when the shoe is empty at the start of the round;
set decks remaining to max(cards/52, 1) and the true count to the running
count over it; pick the bet by the inline spread; play the round, passing
the pre-round running count to the strategy and, as in the source, no
decks_remaining argument; after the round, fold update_count over the
round's cards_seen.  The round consumes the stream cards ++ refill exactly
as repeated Deck.deal would (Deck.deal swaps in refill when cards runs
out), and rebuiltMidRound records whether consumption ran past the current
shoe, which is precisely when deal() rebuilt mid-round. -/
def ccSimStep (st : CCState) : Option CCStepResult :=
  let cards0 := if st.cards.isEmpty then st.refill else st.cards
  let refill0 := if st.cards.isEmpty then ([] : List Card) else st.refill
  let count0 : Int := if st.cards.isEmpty then 0 else st.runningCount
  let decksRemaining : Rat := max ((cards0.length : Rat) / 52) 1
  let trueCount : Rat := (count0 : Rat) / decksRemaining
  let bet : Rat := ccBet trueCount
  match playRound (strategyCardCounter (count0 : Rat) none) bet (cards0 ++ refill0) with
  | none => none
  | some r =>
    let consumed := cards0.length + refill0.length - r.deckAfter.length
    let cardsNext := if cards0.length < consumed then r.deckAfter else cards0.drop consumed
    let refillNext := if cards0.length < consumed then ([] : List Card) else refill0
    let countNext := r.cardsSeen.foldl updateCount count0
    some ⟨r, bet, ⟨cardsNext, refillNext, countNext⟩, decide (cards0.length < consumed)⟩

/-- Modelled from the spec and claims about softness: how many aces are
still counted as 11 after the ace-demotion loop of get_value has run on a
raw sum with the given number of aces. -/
def acesRemaining : Nat → Nat → Nat
  | _, 0 => 0
  | v, n + 1 => if 21 < v then acesRemaining (v - 10) n else n + 1

/-- The number of aces of the hand still counted as 11 in the demoted total. -/
def acesHigh (hand : List Card) : Nat :=
  acesRemaining (rawValue hand) (numAces hand)

/-- Modelled from the claim wording: a hand is soft when at least one ace is
still counted as 11 in the current (ace-demoted) total and that total is at
most 21.  Stated for comparison with the source's is_soft. -/
def specSoft (hand : List Card) : Prop :=
  0 < acesHigh hand ∧ getValue hand ≤ 21

instance (hand : List Card) : Decidable (specSoft hand) :=
  inferInstanceAs (Decidable (And _ _))

/-- Modelled from the claim wording: true count = running count divided by
max(1, decks remaining), decks remaining = cards left in the shoe over 52.
Stated for comparison with the true count the driver-invoked strategy
actually uses. -/
def specTrueCount (runningCount : Rat) (cardsLeft : Nat) : Rat :=
  runningCount / max 1 ((cardsLeft : Rat) / 52)

/-- Concrete fixture: a five-card deal where the player holds 10,9 against a
dealer 3,10 and the dealer draws a 4 to reach 17. -/
def sampleDeckTag : List Card :=
  [Card.r10, Card.r3, Card.r9, Card.r10, Card.r4]

/-- The round record playRound produces on sampleDeckTag under the
mimic-dealer strategy with a bet of 10. -/
def sampleRecordTag : RoundResult :=
  ⟨"10-9", 19, "3-10", 13, "win", 10,
    [Card.r10, Card.r9, Card.r3, Card.r10, Card.r4], [], [17]⟩

/-- Concrete fixture: a five-card deal where the player holds 9,9 against a
dealer 2,10 and the dealer draws a 6 to reach 18, a push. -/
def sampleDeckPush : List Card :=
  [Card.r9, Card.r2, Card.r9, Card.r10, Card.r6]

/-- The round record playRound produces on sampleDeckPush under the
mimic-dealer strategy with a bet of 10. -/
def sampleRecordPush : RoundResult :=
  ⟨"9-9", 18, "2-10", 12, "push", 0,
    [Card.r9, Card.r9, Card.r2, Card.r10, Card.r6], [], [18]⟩

theorem adjustAces_of_le (v n : Nat) (h : v ≤ 21) : adjustAces v n = v := by
  cases n with
  | zero => rfl
  | succ m =>
    unfold adjustAces
    rw [if_neg (by omega)]

theorem acesRemaining_of_le (v n : Nat) (h : v ≤ 21) : acesRemaining v (n + 1) = n + 1 := by
  unfold acesRemaining
  rw [if_neg (by omega)]

theorem acesHigh_of_no_ace (hand : List Card) (h : numAces hand = 0) : acesHigh hand = 0 := by
  unfold acesHigh
  rw [h]
  rfl

/-- C2, counterexample: a hand of two aces.  Its demoted total is 12 with
one ace still counted as 11 and at most 21, so the claim calls it soft, but
the source's is_soft tests the raw sum 22 against 21 and answers false. -/
theorem isSoft_two_aces_cex :
    isSoft [Card.a, Card.a] = false ∧ specSoft [Card.a, Card.a] ∧
    getValue [Card.a, Card.a] = 12 := by
  refine ⟨by decide, by decide, by decide⟩

/-- C2, amended: the source's soft predicate holds iff the hand is soft in
the claim's sense AND additionally the raw (undemoted) sum of card values is
at most 21 — equivalently, the hand contains an ace and no ace demotion was
needed.  It therefore misses multi-ace soft hands whose raw sum exceeds 21. -/
theorem isSoft_iff_specSoft_and_raw_le (hand : List Card) :
    isSoft hand = true ↔ (specSoft hand ∧ rawValue hand ≤ 21) := by
  unfold isSoft specSoft acesHigh getValue
  constructor
  · intro h
    simp only [Bool.and_eq_true, decide_eq_true_eq] at h
    obtain ⟨hpos, hraw⟩ := h
    obtain ⟨n, hn⟩ := Nat.exists_eq_succ_of_ne_zero (Nat.pos_iff_ne_zero.mp hpos)
    rw [hn, acesRemaining_of_le _ _ hraw, adjustAces_of_le _ _ hraw]
    exact ⟨⟨Nat.succ_pos n, hraw⟩, hraw⟩
  · rintro ⟨⟨hpos, _⟩, hraw⟩
    simp only [Bool.and_eq_true, decide_eq_true_eq]
    refine ⟨?_, hraw⟩
    by_contra hz
    rw [Nat.eq_zero_of_not_pos hz] at hpos
    exact absurd hpos (by simp [acesRemaining])

/-- C1, counterexample: the dealer starting on A,A (demoted value 12) draws
a 5 and stops on A,A,5 — value 17 with one ace still counted as 11 in the
demoted total, i.e. a soft 17 in the claim's sense — because the source's
is_soft calls the hand hard (raw sum 27 exceeds 21).  The dealer therefore
stands on a soft 17. -/
theorem dealer_stands_on_two_ace_soft17_cex :
    playDealer [Card.a, Card.a] [Card.r5, Card.r10, Card.r10] =
      some ([Card.a, Card.a, Card.r5], 17, [Card.r5], [Card.r10, Card.r10]) ∧
    specSoft [Card.a, Card.a, Card.r5] ∧
    isSoft [Card.a, Card.a, Card.r5] = false := by
  refine ⟨by decide, by decide, by decide⟩

theorem playDealer_final (deck : List Card) :
    ∀ dealer h v drawn deckRest,
      playDealer dealer deck = some (h, v, drawn, deckRest) →
      v = getValue h ∧ 17 ≤ v ∧ (v = 17 → isSoft h = false) := by
  induction deck with
  | nil =>
    intro dealer h v drawn deckRest hres
    unfold playDealer at hres
    split at hres
    · exact absurd hres (by simp)
    · rename_i hcond
      push_neg at hcond
      simp only [Option.some.injEq, Prod.mk.injEq] at hres
      obtain ⟨rfl, rfl, rfl, rfl⟩ := hres
      exact ⟨rfl, hcond.1, fun hv => by simpa using hcond.2 hv⟩
  | cons c rest ih =>
    intro dealer h v drawn deckRest hres
    unfold playDealer at hres
    split at hres
    · cases hinner : playDealer (dealer ++ [c]) rest with
      | none => rw [hinner] at hres; exact absurd hres (by simp)
      | some q =>
        obtain ⟨h2, v2, drawn2, rest2⟩ := q
        rw [hinner] at hres
        simp only [Option.some.injEq, Prod.mk.injEq] at hres
        obtain ⟨rfl, rfl, rfl, rfl⟩ := hres
        exact ih _ _ _ _ _ hinner
    · rename_i hcond
      push_neg at hcond
      simp only [Option.some.injEq, Prod.mk.injEq] at hres
      obtain ⟨rfl, rfl, rfl, rfl⟩ := hres
      exact ⟨rfl, hcond.1, fun hv => by simpa using hcond.2 hv⟩

/-- C1, amended: the dealer protocol with softness as the source computes
it.  Whenever play_dealer completes, the final value is at least 17 and a
final value of exactly 17 is hard in the source's sense (the source does
stand on multi-ace soft 17s, see the counterexample); whenever the drawing
condition (value below 17, or 17 and source-soft) holds, at least one card
is drawn; and when it fails the dealer stands immediately without drawing. -/
theorem playDealer_protocol (dealer deck : List Card) :
    (∀ h v drawn deckRest,
      playDealer dealer deck = some (h, v, drawn, deckRest) →
      (17 ≤ v ∧ (v = 17 → isSoft h = false)) ∧
      ((getValue dealer < 17 ∨ (getValue dealer = 17 ∧ isSoft dealer = true)) → drawn ≠ [])) ∧
    (¬(getValue dealer < 17 ∨ (getValue dealer = 17 ∧ isSoft dealer = true)) →
      playDealer dealer deck = some (dealer, getValue dealer, [], deck)) := by
  constructor
  · intro h v drawn deckRest hres
    refine ⟨(playDealer_final deck dealer h v drawn deckRest hres).2, ?_⟩
    intro hcond
    cases deck with
    | nil =>
      unfold playDealer at hres
      rw [if_pos hcond] at hres
      exact absurd hres (by simp)
    | cons c rest =>
      unfold playDealer at hres
      rw [if_pos hcond] at hres
      cases hinner : playDealer (dealer ++ [c]) rest with
      | none => rw [hinner] at hres; exact absurd hres (by simp)
      | some q =>
        obtain ⟨h2, v2, drawn2, rest2⟩ := q
        rw [hinner] at hres
        simp only [Option.some.injEq, Prod.mk.injEq] at hres
        obtain ⟨rfl, rfl, rfl, rfl⟩ := hres
        simp
  · intro hcond
    cases deck with
    | nil => unfold playDealer; rw [if_neg hcond]
    | cons c rest => unfold playDealer; rw [if_neg hcond]

theorem updateCount_eq (count : Int) (c : Card) :
    updateCount count c = count + countIncrement c := by
  cases c <;> simp [updateCount, countIncrement] <;> omega

theorem foldl_updateCount (l : List Card) (count : Int) :
    l.foldl updateCount count = count + (l.map countIncrement).sum := by
  induction l generalizing count with
  | nil => simp
  | cons c t ih => simp [List.foldl_cons, updateCount_eq, ih, add_assoc]

theorem hitLoop_deck (strat : Strategy) (up : Card) :
    ∀ deck hand fh hits deckRest b,
      hitLoop strat up hand deck = some (fh, hits, deckRest, b) →
      deck = hits ++ deckRest := by
  intro deck
  induction deck with
  | nil =>
    intro hand fh hits deckRest b h
    unfold hitLoop at h
    split at h <;> simp_all
  | cons c rest ih =>
    intro hand fh hits deckRest b h
    unfold hitLoop at h
    split at h
    · split at h
      · simp only [Option.some.injEq, Prod.mk.injEq] at h
        obtain ⟨rfl, rfl, rfl, rfl⟩ := h
        rfl
      · split at h
        · simp_all
        · rename_i fh2 drawn2 rest2 b2 heq
          simp only [Option.some.injEq, Prod.mk.injEq] at h
          obtain ⟨rfl, rfl, rfl, rfl⟩ := h
          simp [ih _ _ _ _ _ heq]
    · simp_all

theorem playDealer_deck :
    ∀ deck dealer h v drawn deckRest,
      playDealer dealer deck = some (h, v, drawn, deckRest) →
      deck = drawn ++ deckRest := by
  intro deck
  induction deck with
  | nil =>
    intro dealer h v drawn deckRest hres
    unfold playDealer at hres
    split at hres <;> simp_all
  | cons c rest ih =>
    intro dealer h v drawn deckRest hres
    unfold playDealer at hres
    split at hres
    · split at hres
      · simp_all
      · rename_i h2 v2 drawn2 rest2 heq
        simp only [Option.some.injEq, Prod.mk.injEq] at hres
        obtain ⟨rfl, rfl, rfl, rfl⟩ := hres
        simp [ih _ _ _ _ _ heq]
    · simp_all

theorem playHandNoSplit_deck (strat : Strategy) (up : Card) (dealerCards : List Card)
    (bet : Rat) (allowDouble : Bool) (hand deck : List Card) (res : HandResult)
    (h : playHandNoSplit strat up dealerCards bet allowDouble hand deck = some res) :
    deck = res.seen ++ res.deckAfter := by
  unfold playHandNoSplit at h
  split at h
  · split at h
    · simp_all
    · rename_i c rest
      split at h
      · simp only [Option.some.injEq] at h
        subst h
        simp
      · split at h
        · simp_all
        · rename_i x dv drawn rest2 heq
          simp only [Option.some.injEq] at h
          subst h
          simp [playDealer_deck _ _ _ _ _ _ heq]
  · split at h
    · simp_all
    · rename_i fh hits deckRest busted heq
      split at h
      · simp only [Option.some.injEq] at h
        subst h
        simpa using hitLoop_deck strat up deck hand fh hits deckRest busted heq
      · split at h
        · simp_all
        · rename_i x dv drawn rest2 heq2
          simp only [Option.some.injEq] at h
          subst h
          have h1 := hitLoop_deck strat up deck hand fh hits deckRest busted heq
          have h2 := playDealer_deck deckRest dealerCards x dv drawn rest2 heq2
          simp [h1, h2]

theorem playSingleHand_deck (strat : Strategy) (up : Card) (dealerCards : List Card)
    (bet : Rat) (allowDouble allowSplit : Bool) (hand deck : List Card) (res : HandResult)
    (h : playSingleHand strat up dealerCards bet allowDouble allowSplit hand deck = some res) :
    deck = res.seen ++ res.deckAfter := by
  unfold playSingleHand at h
  split at h
  · rename_i c1 c2
    split at h
    · split at h
      · rename_i d1 d2 rest
        split at h
        · simp_all
        · rename_i res1 heq1
          split at h
          · simp_all
          · rename_i res2 heq2
            simp only [Option.some.injEq] at h
            subst h
            have h1 := playHandNoSplit_deck _ _ _ _ _ _ _ _ heq1
            have h2 := playHandNoSplit_deck _ _ _ _ _ _ _ _ heq2
            simp [h1, h2]
      · simp_all
    · exact playHandNoSplit_deck _ _ _ _ _ _ _ _ h
  · exact playHandNoSplit_deck _ _ _ _ _ _ _ _ h

theorem perm_front (p1 d1 p2 d2 : Card) (l : List Card) :
    (p1 :: d1 :: p2 :: d2 :: l).Perm (([p1, p2] ++ [d1, d2]) ++ l) := by
  simp only [List.cons_append, List.nil_append]
  exact List.Perm.cons p1 (List.Perm.swap p2 d1 (d2 :: l))

/-- C8: every card play_round drew from the deck is accounted for in the
round record's cards_seen (the original deck is a permutation of cards_seen
followed by the remaining deck), and folding update_count over cards_seen —
which is exactly what the driver does strictly after the round — adds the
sum of the per-card increments to the pre-round running count, which is the
count the strategy was invoked with. -/
theorem round_cards_seen_counted (strat : Strategy) (bet : Rat) (deck : List Card)
    (r : RoundResult) (count : Int)
    (h : playRound strat bet deck = some r) :
    deck.Perm (r.cardsSeen ++ r.deckAfter) ∧
    r.cardsSeen.foldl updateCount count = count + (r.cardsSeen.map countIncrement).sum := by
  refine ⟨?_, foldl_updateCount _ _⟩
  unfold playRound at h
  split at h
  · rename_i p1 d1 p2 d2 rest
    split at h
    · simp only [Option.some.injEq] at h
      subst h
      exact perm_front p1 d1 p2 d2 rest
    · split at h
      · simp only [Option.some.injEq] at h
        subst h
        exact perm_front p1 d1 p2 d2 rest
      · split at h
        · simp only [Option.some.injEq] at h
          subst h
          exact perm_front p1 d1 p2 d2 rest
        · split at h
          · simp_all
          · rename_i res heq
            simp only [Option.some.injEq] at h
            subst h
            have h1 := playSingleHand_deck _ _ _ _ _ _ _ _ _ heq
            have h2 := perm_front p1 d1 p2 d2 (res.seen ++ res.deckAfter)
            rw [h1]
            simpa using h2
  · simp_all

/-- Witness for round_cards_seen_counted on a concrete five-card round with
pre-round count 5. -/
theorem round_cards_seen_counted_witness :
    sampleDeckTag.Perm (sampleRecordTag.cardsSeen ++ sampleRecordTag.deckAfter) ∧
    sampleRecordTag.cardsSeen.foldl updateCount 5 =
      5 + (sampleRecordTag.cardsSeen.map countIncrement).sum :=
  round_cards_seen_counted strategyMimicDealer 10 sampleDeckTag sampleRecordTag 5 rfl

theorem playHandNoSplit_dealerVals (strat : Strategy) (up : Card) (dealerCards : List Card)
    (bet : Rat) (allowDouble : Bool) (hand deck : List Card) (res : HandResult)
    (h : playHandNoSplit strat up dealerCards bet allowDouble hand deck = some res) :
    res.dealerVals.length ≤ 1 ∧ ∀ v ∈ res.dealerVals, 17 ≤ v := by
  unfold playHandNoSplit at h
  split at h
  · split at h
    · simp_all
    · rename_i c rest
      split at h
      · simp only [Option.some.injEq] at h
        subst h
        simp
      · split at h
        · simp_all
        · rename_i x dv drawn rest2 heq
          simp only [Option.some.injEq] at h
          subst h
          have := playDealer_final _ _ _ _ _ _ heq
          simpa using this.2.1
  · split at h
    · simp_all
    · rename_i fh hits deckRest busted heq
      split at h
      · simp only [Option.some.injEq] at h
        subst h
        simp
      · split at h
        · simp_all
        · rename_i x dv drawn rest2 heq2
          simp only [Option.some.injEq] at h
          subst h
          have := playDealer_final _ _ _ _ _ _ heq2
          simpa using this.2.1

theorem playSingleHand_dealerVals (strat : Strategy) (up : Card) (dealerCards : List Card)
    (bet : Rat) (allowDouble allowSplit : Bool) (hand deck : List Card) (res : HandResult)
    (h : playSingleHand strat up dealerCards bet allowDouble allowSplit hand deck = some res) :
    res.dealerVals.length ≤ 2 ∧ ∀ v ∈ res.dealerVals, 17 ≤ v := by
  unfold playSingleHand at h
  split at h
  · rename_i c1 c2
    split at h
    · split at h
      · rename_i d1 d2 rest
        split at h
        · simp_all
        · rename_i res1 heq1
          split at h
          · simp_all
          · rename_i res2 heq2
            simp only [Option.some.injEq] at h
            subst h
            have h1 := playHandNoSplit_dealerVals _ _ _ _ _ _ _ _ heq1
            have h2 := playHandNoSplit_dealerVals _ _ _ _ _ _ _ _ heq2
            constructor
            · simp only [List.length_append]
              omega
            · intro v hv
              rcases List.mem_append.mp hv with hv | hv
              · exact h1.2 v hv
              · exact h2.2 v hv
      · simp_all
    · have := playHandNoSplit_dealerVals _ _ _ _ _ _ _ _ h
      exact ⟨this.1.trans (by omega), this.2⟩
  · have := playHandNoSplit_dealerVals _ _ _ _ _ _ _ _ h
    exact ⟨this.1.trans (by omega), this.2⟩

/-- C3, counterexample: the player splits 8,8 against a dealer 5,9 and both
sub-hands stand on 18; the round performs TWO dealer playouts, drawing
fresh cards for each — the first busts at 24, the second stops at 21 — so
the two sub-hands of the same round settle against different dealer finals
(+10 and -10, netting 0), which a single shared dealer playout could never
produce for two equal-valued hands. -/
theorem split_round_two_dealer_playouts_cex :
    (playRound strategyBasic 10
        [Card.r8, Card.r5, Card.r8, Card.r9, Card.r10, Card.r10, Card.r10, Card.r7]).map
      (fun r => (r.dealerPlayoutVals, r.profit, r.result)) =
      some ([24, 21], 0, "push") := by
  have h : playRound strategyBasic 10
      [Card.r8, Card.r5, Card.r8, Card.r9, Card.r10, Card.r10, Card.r10, Card.r7] =
      some ⟨"8-10|8-10", 16, "5-9", 14,
        (if (0 : Rat) < 10 + -10 then "win" else if (10 : Rat) + -10 < 0 then "loss" else "push"),
        10 + -10,
        [Card.r8, Card.r8, Card.r5, Card.r9, Card.r10, Card.r10, Card.r10, Card.r7], [],
        [24, 21]⟩ := rfl
  rw [h]
  norm_num

/-- C3, amended: the dealer hand is played out not once per round but once
per player hand that reaches the comparison (zero playouts when every hand
busts or on a blackjack resolution, up to two after a split); each playout
independently draws to completion (final value at least 17, counting
busts), and sub-hand profits are summed even though the sub-hands may face
different dealer finals. -/
theorem dealer_playouts_per_round (strat : Strategy) (bet : Rat) (deck : List Card)
    (r : RoundResult) (h : playRound strat bet deck = some r) :
    r.dealerPlayoutVals.length ≤ 2 ∧ ∀ v ∈ r.dealerPlayoutVals, 17 ≤ v := by
  unfold playRound at h
  split at h
  · rename_i p1 d1 p2 d2 rest
    split at h
    · simp only [Option.some.injEq] at h
      subst h
      simp
    · split at h
      · simp only [Option.some.injEq] at h
        subst h
        simp
      · split at h
        · simp only [Option.some.injEq] at h
          subst h
          simp
        · split at h
          · simp_all
          · rename_i res heq
            simp only [Option.some.injEq] at h
            subst h
            exact playSingleHand_dealerVals _ _ _ _ _ _ _ _ _ heq
  · simp_all

/-- Witness for dealer_playouts_per_round on a concrete pushed round with a
single dealer playout reaching 18. -/
theorem dealer_playouts_per_round_witness :
    sampleRecordPush.dealerPlayoutVals.length ≤ 2 ∧
    ∀ v ∈ sampleRecordPush.dealerPlayoutVals, 17 ≤ v :=
  dealer_playouts_per_round strategyMimicDealer 10 sampleDeckPush sampleRecordPush rfl

/-- Witness for playDealer_protocol: a hard 16 draws (a 5, reaching 21) and
a hard 17 stands immediately. -/
theorem playDealer_protocol_witness :
    ((17 ≤ 21 ∧ (21 = 17 → isSoft [Card.r10, Card.r6, Card.r5] = false)) ∧
      ((getValue [Card.r10, Card.r6] < 17 ∨
        (getValue [Card.r10, Card.r6] = 17 ∧ isSoft [Card.r10, Card.r6] = true)) →
        [Card.r5] ≠ [])) ∧
    playDealer [Card.r10, Card.r7] [Card.r2] =
      some ([Card.r10, Card.r7], getValue [Card.r10, Card.r7], [], [Card.r2]) :=
  ⟨(playDealer_protocol [Card.r10, Card.r6] [Card.r5]).1
      [Card.r10, Card.r6, Card.r5] 21 [Card.r5] [] (by decide),
    (playDealer_protocol [Card.r10, Card.r7] [Card.r2]).2 (by decide)⟩

theorem strategyCardCounter_none_eq (rc : Rat) :
    strategyCardCounter rc none = fun hand up canDouble canSplit =>
      deviationDecision rc hand up canDouble canSplit := by
  funext hand up canDouble canSplit
  unfold strategyCardCounter deviationDecision
  norm_num

/-- C5, amended: the true count used for the deviation table equals the
running count divided by max(1, decks_remaining) where decks_remaining is
the keyword argument supplied by the caller; the driver supplies none, so
the default of 1 applies and every in-round deviation decision is taken at
true count = running count, regardless of how many cards remain in the
shoe. -/
theorem cardCounter_driver_true_count (rc : Rat) (hand : List Card) (up : Card)
    (canDouble canSplit : Bool) :
    strategyCardCounter rc none hand up canDouble canSplit =
      deviationDecision rc hand up canDouble canSplit := by
  rw [strategyCardCounter_none_eq]

set_option maxRecDepth 400000 in
/-- C5, counterexample: with running count 6 and a full 312-card shoe the
claim's true count is 6 / max(1, 312/52) = 1, under which 15 against a 10
is below the stand-at-4 threshold and basic strategy says hit; but the
driver passes no decks_remaining, so the strategy divides by 1, uses true
count 6 and stands — as the driver-level record "10-5" (the player kept
exactly two cards) confirms. -/
theorem deviation_ignores_shoe_depth_cex :
    strategyCardCounter 6 none [Card.r10, Card.r5] Card.r10 false false = Action.stand ∧
    specTrueCount 6 312 = 1 ∧
    deviationDecision (specTrueCount 6 312) [Card.r10, Card.r5] Card.r10 false false =
      Action.hit ∧
    (ccSimStep ⟨[Card.r10, Card.r10, Card.r5, Card.r8] ++ List.replicate 308 Card.r7, [], 6⟩).map
      (fun s => s.record.playerHand) = some "10-5" := by
  have hsp : specTrueCount 6 312 = 1 := by
    unfold specTrueCount
    have hc : ((312 : Nat) : Rat) / 52 = 6 := by norm_num
    rw [hc, max_eq_right (by norm_num : (1 : Rat) ≤ 6)]
    norm_num
  refine ⟨?_, hsp, ?_, ?_⟩
  · rw [strategyCardCounter_none_eq]
    rfl
  · rw [hsp]
    rfl
  · have hs := strategyCardCounter_none_eq ((6 : Int) : Rat)
    unfold ccSimStep
    simp only [List.cons_append, List.isEmpty_cons, Bool.false_eq_true, if_false, hs]
    rfl

set_option maxRecDepth 400000 in
/-- C4, evaluation at the failing input: the driver starts a card-counter
round with one card left in the shoe and running count 5; deal() silently
rebuilds mid-round (rebuiltMidRound = true), yet the driver's count after
the round is 4 = 5 - 1 (the old count carried forward and decremented by
the ten dealt from the REBUILT shoe) rather than being reset to zero at the
rebuild. -/
theorem midround_rebuild_count_persists_eval :
    (ccSimStep ⟨[Card.r7], [Card.r10, Card.r9, Card.r8] ++ List.replicate 309 Card.r7, 5⟩).map
      (fun s => (s.rebuiltMidRound, s.next.runningCount)) = some (true, 4) := by
  have hs := strategyCardCounter_none_eq ((5 : Int) : Rat)
  unfold ccSimStep
  simp only [List.isEmpty_cons, Bool.false_eq_true, if_false, hs]
  rfl

/-- C6, evaluation at the failing input: the player stands on 10,9 while
the dealer, from 2,10 = 12, draws a 5 and completes to 17 (the playout
value recorded in dealerPlayoutVals); yet the round record reports
dealer_hand "2-10" and dealer_final_value 12 — the initial two cards, whose
value getValue [2,10] = 12 is below 17 — because play_dealer plays a copy
and the dealer_hand object the record reads is never mutated. -/
theorem dealer_record_initial_cards_eval :
    (playRound strategyMimicDealer 10 [Card.r10, Card.r2, Card.r9, Card.r10, Card.r5]).map
      (fun r => (r.dealerHand, r.dealerFinalValue, r.dealerPlayoutVals)) =
      some ("2-10", 12, [17]) ∧
    getValue [Card.r2, Card.r10] = 12 :=
  ⟨rfl, rfl⟩

/-- C7: the blackjack checks of play_round.  With both hands dealt, if both
are blackjacks the round is a push with profit 0; a player-only blackjack
wins exactly 3/2 of the bet; a dealer-only blackjack loses exactly the bet;
and with neither, play proceeds to the player decision phase
(play_single_hand), whose profit and sign-derived result tag the record
reports. -/
theorem playRound_blackjack_checks (strat : Strategy) (bet : Rat) (p1 d1 p2 d2 : Card)
    (rest : List Card) :
    (isBlackjack [p1, p2] = true → isBlackjack [d1, d2] = true →
      playRound strat bet (p1 :: d1 :: p2 :: d2 :: rest) =
        some ⟨handStr [p1, p2], getValue [p1, p2], handStr [d1, d2], getValue [d1, d2],
          "push", 0, [p1, p2] ++ [d1, d2], rest, []⟩) ∧
    (isBlackjack [p1, p2] = true → isBlackjack [d1, d2] = false →
      playRound strat bet (p1 :: d1 :: p2 :: d2 :: rest) =
        some ⟨handStr [p1, p2], getValue [p1, p2], handStr [d1, d2], getValue [d1, d2],
          "win", 3 / 2 * bet, [p1, p2] ++ [d1, d2], rest, []⟩) ∧
    (isBlackjack [p1, p2] = false → isBlackjack [d1, d2] = true →
      playRound strat bet (p1 :: d1 :: p2 :: d2 :: rest) =
        some ⟨handStr [p1, p2], getValue [p1, p2], handStr [d1, d2], getValue [d1, d2],
          "loss", -bet, [p1, p2] ++ [d1, d2], rest, []⟩) ∧
    (isBlackjack [p1, p2] = false → isBlackjack [d1, d2] = false →
      ∀ r, playRound strat bet (p1 :: d1 :: p2 :: d2 :: rest) = some r →
        ∃ hr, playSingleHand strat d1 [d1, d2] bet true true [p1, p2] rest = some hr ∧
          r.profit = hr.profit ∧
          r.result =
            (if 0 < hr.profit then "win" else if hr.profit < 0 then "loss" else "push") ∧
          r.playerFinalValue = getValue hr.objCards) := by
  refine ⟨?_, ?_, ?_, ?_⟩
  · intro h1 h2
    simp [playRound, h1, h2]
  · intro h1 h2
    simp [playRound, h1, h2]
  · intro h1 h2
    simp [playRound, h1, h2]
  · intro h1 h2 r hr
    simp only [playRound, h1, h2, Bool.false_and, Bool.and_false, if_false,
      Bool.false_eq_true] at hr
    cases hps : playSingleHand strat d1 [d1, d2] bet true true [p1, p2] rest with
    | none => rw [hps] at hr; exact absurd hr (by simp)
    | some res =>
      rw [hps] at hr
      simp only [Option.some.injEq] at hr
      exact ⟨res, rfl, by rw [← hr], by rw [← hr], by rw [← hr]⟩

/-- Witness for playRound_blackjack_checks: the player is dealt A,K (a
blackjack) against a dealer 2,10 and is paid 3/2 of the bet of 10. -/
theorem playRound_blackjack_checks_witness :
    playRound strategyMimicDealer 10 [Card.a, Card.r2, Card.k, Card.r10] =
      some ⟨handStr [Card.a, Card.k], getValue [Card.a, Card.k],
        handStr [Card.r2, Card.r10], getValue [Card.r2, Card.r10],
        "win", 3 / 2 * 10, [Card.a, Card.k] ++ [Card.r2, Card.r10], [], []⟩ :=
  (playRound_blackjack_checks strategyMimicDealer 10 Card.a Card.r2 Card.k Card.r10 []).2.1
    (by decide) (by decide)

/-- C9: the inline card-counter bet spread.  10 below true count 1, 25 at
exactly 2, 50 at exactly 3, 100 from 4 up, and 10 on the whole uncovered
remainder — all of [1, 2), (2, 3) and (3, 4), so the gap is preserved, not
smoothed. -/
theorem ccBet_spread (tc : Rat) :
    (tc < 1 → ccBet tc = 10) ∧
    (tc = 2 → ccBet tc = 25) ∧
    (tc = 3 → ccBet tc = 50) ∧
    (4 ≤ tc → ccBet tc = 100) ∧
    (1 ≤ tc ∧ tc < 2 → ccBet tc = 10) ∧
    (2 < tc ∧ tc < 3 → ccBet tc = 10) ∧
    (3 < tc ∧ tc < 4 → ccBet tc = 10) := by
  unfold ccBet
  refine ⟨?_, ?_, ?_, ?_, ?_, ?_, ?_⟩
  · intro h
    rw [if_pos h]
  · rintro rfl
    norm_num
  · rintro rfl
    norm_num
  · intro h
    rw [if_neg (by linarith), if_neg (by rintro rfl; linarith),
      if_neg (by rintro rfl; linarith), if_pos h]
  · rintro ⟨h1, h2⟩
    rw [if_neg (not_lt.mpr h1), if_neg (by rintro rfl; linarith),
      if_neg (by rintro rfl; linarith), if_neg (by intro h4; linarith)]
  · rintro ⟨h1, h2⟩
    rw [if_neg (by linarith), if_neg (by rintro rfl; linarith),
      if_neg (by rintro rfl; linarith), if_neg (by intro h4; linarith)]
  · rintro ⟨h1, h2⟩
    rw [if_neg (by linarith), if_neg (by rintro rfl; linarith),
      if_neg (by rintro rfl; linarith), if_neg (by intro h4; linarith)]

/-- Witness for ccBet_spread at representative points, including the gap
values 3/2, 5/2 and 7/2. -/
theorem ccBet_spread_witness :
    ccBet (1 / 2) = 10 ∧ ccBet 2 = 25 ∧ ccBet 3 = 50 ∧ ccBet 5 = 100 ∧
    ccBet (3 / 2) = 10 ∧ ccBet (5 / 2) = 10 ∧ ccBet (7 / 2) = 10 :=
  ⟨(ccBet_spread (1 / 2)).1 (by norm_num),
    (ccBet_spread 2).2.1 rfl,
    (ccBet_spread 3).2.2.1 rfl,
    (ccBet_spread 5).2.2.2.1 (by norm_num),
    (ccBet_spread (3 / 2)).2.2.2.2.1 ⟨by norm_num, by norm_num⟩,
    (ccBet_spread (5 / 2)).2.2.2.2.2.1 ⟨by norm_num, by norm_num⟩,
    (ccBet_spread (7 / 2)).2.2.2.2.2.2 ⟨by norm_num, by norm_num⟩⟩

/-- C10: in every round settled by hand comparison (no blackjack on either
side), the record's result tag is determined solely by the sign of the
round's total profit: win iff positive, loss iff negative, push iff zero —
in particular a split round whose sub-hands win and lose the same amount is
tagged push (see split_round_two_dealer_playouts_cex for such a round). -/
theorem result_tag_from_profit_sign (strat : Strategy) (bet : Rat) (p1 d1 p2 d2 : Card)
    (rest : List Card) (r : RoundResult)
    (hp : isBlackjack [p1, p2] = false) (hd : isBlackjack [d1, d2] = false)
    (h : playRound strat bet (p1 :: d1 :: p2 :: d2 :: rest) = some r) :
    (r.result = "win" ↔ 0 < r.profit) ∧ (r.result = "loss" ↔ r.profit < 0) ∧
    (r.result = "push" ↔ r.profit = 0) := by
  simp only [playRound, hp, hd, Bool.false_and, Bool.and_false, if_false,
    Bool.false_eq_true] at h
  cases hps : playSingleHand strat d1 [d1, d2] bet true true [p1, p2] rest with
  | none => rw [hps] at h; exact absurd h (by simp)
  | some res =>
    rw [hps] at h
    simp only [Option.some.injEq] at h
    subst h
    rcases lt_trichotomy res.profit 0 with hlt | heq | hgt
    · have h1 : ¬(0 < res.profit) := not_lt.mpr hlt.le
      refine ⟨?_, ?_, ?_⟩ <;> simp [h1, hlt, hlt.ne]
    · refine ⟨?_, ?_, ?_⟩ <;> simp [heq]
    · have h1 : ¬(res.profit < 0) := not_lt.mpr hgt.le
      refine ⟨?_, ?_, ?_⟩ <;> simp [h1, hgt, hgt.ne.symm]

/-- Witness for result_tag_from_profit_sign on a concrete won round. -/
theorem result_tag_from_profit_sign_witness :
    (sampleRecordTag.result = "win" ↔ 0 < sampleRecordTag.profit) ∧
    (sampleRecordTag.result = "loss" ↔ sampleRecordTag.profit < 0) ∧
    (sampleRecordTag.result = "push" ↔ sampleRecordTag.profit = 0) :=
  result_tag_from_profit_sign strategyMimicDealer 10 Card.r10 Card.r3 Card.r9 Card.r10
    [Card.r4] sampleRecordTag (by decide) (by decide) rfl

end Blackjack
